import Mathlib

/-!
# Verification of the blog-app resilient cache access layer

Shallow embedding of `blog-list/utils/redis.js` (the `RedisClient`
connection manager and the cache facade `get`/`set`/`del`/`clearPattern`),
the cache middleware (`cacheResponse`, `invalidateCache`,
`generateCacheKey`, `invalidateCachePatterns`) and
`blog-list/controllers/health.js` (readiness and detailed health checks).

JavaScript strings are modelled as `List Char`; JavaScript exceptions as
`Except`; the JSON values handled by `JSON.stringify` / `JSON.parse` as the
inductive type `Json` below.  The serializer follows `JSON.stringify`
(canonical output, no whitespace; the two escapes `\"` and `\\` that the
reachable payloads need), and the parser follows `JSON.parse` restricted to
those canonical serializations, which are the only strings the cache layer
ever stores.
-/

namespace BlogApp

/-- JavaScript strings, modelled as lists of characters. -/
abbrev JStr := List Char

/-- JSON values as produced and consumed by the cache layer.  Numbers are
modelled as integers (the payloads the app caches use integral counts). -/
inductive Json where
  | null
  | bool (b : Bool)
  | num (n : Int)
  | str (s : JStr)
  | arr (xs : List Json)
  | obj (fields : List (JStr × Json))

/-- JavaScript truthiness of a JSON value (`if (value)`). -/
def Json.isTruthy : Json → Bool
  | .null => false
  | .bool b => b
  | .num n => decide (n ≠ 0)
  | .str s => decide (s ≠ [])
  | .arr _ => true
  | .obj _ => true

/-- The character `U+007B` (left curly brace). -/
def lbrace : Char := Char.ofNat 123

/-- The character `U+007D` (right curly brace). -/
def rbrace : Char := Char.ofNat 125

/-- String-body escaping performed by `JSON.stringify`: quote and backslash
are escaped with a backslash. -/
def escapeChars : JStr → JStr
  | [] => []
  | c :: cs => (if c = '"' ∨ c = '\\' then ['\\', c] else [c]) ++ escapeChars cs

/-- The decimal digit characters. -/
def digitChar : Nat → Char
  | 0 => '0'
  | 1 => '1'
  | 2 => '2'
  | 3 => '3'
  | 4 => '4'
  | 5 => '5'
  | 6 => '6'
  | 7 => '7'
  | 8 => '8'
  | _ => '9'

/-- Decimal digits of a natural number, most significant first; `fuel`
bounds the recursion depth. -/
def natToChars : Nat → Nat → JStr
  | 0, _ => []
  | fuel + 1, n =>
    if n < 10 then [digitChar n] else natToChars fuel (n / 10) ++ [digitChar (n % 10)]

/-- Decimal digits of a natural number, most significant first. -/
def natChars (n : Nat) : JStr := natToChars (n + 1) n

/-- Decimal rendering of an integer, as `JSON.stringify` renders it. -/
def intChars (i : Int) : JStr :=
  if i < 0 then '-' :: natChars i.natAbs else natChars i.toNat

/-- The keyword `null` as characters. -/
def nullChars : JStr := ['n', 'u', 'l', 'l']

/-- The keyword `true` as characters. -/
def trueChars : JStr := ['t', 'r', 'u', 'e']

/-- The keyword `false` as characters. -/
def falseChars : JStr := ['f', 'a', 'l', 's', 'e']

mutual

/-- `JSON.stringify` on a JSON value (canonical form: no whitespace,
object fields in insertion order). -/
def stringifyChars : Json → JStr
  | .null => nullChars
  | .bool true => trueChars
  | .bool false => falseChars
  | .num n => intChars n
  | .str s => '"' :: (escapeChars s ++ ['"'])
  | .arr [] => ['[', ']']
  | .arr (x :: xs) => '[' :: (stringifyChars x ++ (stringifyTail xs ++ [']']))
  | .obj [] => [lbrace, rbrace]
  | .obj (f :: fs) => lbrace :: (fieldChars f ++ (fieldTail fs ++ [rbrace]))

/-- Serialization of the remaining elements of a nonempty array, each
preceded by a comma. -/
def stringifyTail : List Json → JStr
  | [] => []
  | x :: xs => ',' :: (stringifyChars x ++ stringifyTail xs)

/-- Serialization of a single object field. -/
def fieldChars : JStr × Json → JStr
  | (k, v) => '"' :: (escapeChars k ++ ('"' :: ':' :: stringifyChars v))

/-- Serialization of the remaining fields of a nonempty object, each
preceded by a comma. -/
def fieldTail : List (JStr × Json) → JStr
  | [] => []
  | f :: fs => ',' :: (fieldChars f ++ fieldTail fs)

end

/-- Parse a string-literal body up to the closing quote, undoing the
escaping of `escapeChars`.  Returns the string and the unconsumed rest. -/
def parseStrBody : JStr → Option (JStr × JStr)
  | [] => none
  | c :: cs =>
    if c = '"' then some ([], cs)
    else if c = '\\' then
      match cs with
      | [] => none
      | e :: cs2 => (parseStrBody cs2).map fun p => (e :: p.1, p.2)
    else (parseStrBody cs).map fun p => (c :: p.1, p.2)

/-- Consume a maximal run of decimal digits, accumulating their value onto
`acc`; returns the value and the unconsumed rest. -/
def parseDigits : JStr → Nat → Nat × JStr
  | [], acc => (acc, [])
  | c :: cs, acc =>
    if c.isDigit then parseDigits cs (acc * 10 + (c.toNat - 48)) else (acc, c :: cs)

mutual

/-- Parse one JSON value from the front of the input (the grammar in the
canonical form emitted by `stringifyChars`).  `fuel` bounds the recursion
through nested arrays and objects. -/
def parseVal : Nat → JStr → Option (Json × JStr)
  | 0, _ => none
  | fuel + 1, cs =>
    match cs with
    | [] => none
    | c :: rest =>
      if c = 'n' then
        if rest.take 3 = ['u', 'l', 'l'] then some (.null, rest.drop 3) else none
      else if c = 't' then
        if rest.take 3 = ['r', 'u', 'e'] then some (.bool true, rest.drop 3) else none
      else if c = 'f' then
        if rest.take 4 = ['a', 'l', 's', 'e'] then some (.bool false, rest.drop 4) else none
      else if c = '"' then
        (parseStrBody rest).map fun p => (Json.str p.1, p.2)
      else if c = '[' then
        if rest.take 1 = [']'] then some (.arr [], rest.drop 1)
        else (parseElems fuel rest).map fun p => (Json.arr p.1, p.2)
      else if c = lbrace then
        if rest.take 1 = [rbrace] then some (.obj [], rest.drop 1)
        else (parseFields fuel rest).map fun p => (Json.obj p.1, p.2)
      else if c = '-' then
        match rest with
        | [] => none
        | d :: rest2 =>
          if d.isDigit then
            let p := parseDigits rest2 (d.toNat - 48)
            some (.num (-(p.1 : Int)), p.2)
          else none
      else if c.isDigit then
        let p := parseDigits rest (c.toNat - 48)
        some (.num (p.1 : Int), p.2)
      else none

/-- Parse the elements of a nonempty array after the opening bracket,
through the closing bracket. -/
def parseElems : Nat → JStr → Option (List Json × JStr)
  | 0, _ => none
  | fuel + 1, cs =>
    (parseVal fuel cs).bind fun p =>
      match p.2 with
      | c2 :: r2 =>
        if c2 = ',' then (parseElems fuel r2).map fun q => (p.1 :: q.1, q.2)
        else if c2 = ']' then some ([p.1], r2)
        else none
      | [] => none

/-- Parse the fields of a nonempty object after the opening brace, through
the closing brace. -/
def parseFields : Nat → JStr → Option (List (JStr × Json) × JStr)
  | 0, _ => none
  | fuel + 1, cs =>
    match cs with
    | c :: cs2 =>
      if c = '"' then
        (parseStrBody cs2).bind fun kp =>
          match kp.2 with
          | c2 :: r2 =>
            if c2 = ':' then
              (parseVal fuel r2).bind fun vp =>
                match vp.2 with
                | c4 :: r4 =>
                  if c4 = ',' then
                    (parseFields fuel r4).map fun q => ((kp.1, vp.1) :: q.1, q.2)
                  else if c4 = rbrace then some ([(kp.1, vp.1)], r4)
                  else none
                | [] => none
            else none
          | [] => none
      else none
    | [] => none

end

/-- `JSON.parse` on the canonical serializations stored by the cache:
the whole input must parse as one JSON value.  `none` models the
`SyntaxError` that `JSON.parse` throws on malformed input. -/
def jsonParse (cs : JStr) : Option Json :=
  match parseVal (cs.length + 1) cs with
  | some (v, []) => some v
  | _ => none

/-! ## Correctness of the serializer / parser pair -/

/-- `true` when the input does not begin with a decimal digit (so a number
parse just before it stops where it should). -/
def notDigitStart : JStr → Bool
  | [] => true
  | c :: _ => !c.isDigit

mutual

/-- Fuel needed by `parseVal` to parse the serialization of `v`. -/
def jcostV : Json → Nat
  | .arr [] => 1
  | .arr (x :: xs) => 1 + jcostE (x :: xs)
  | .obj [] => 1
  | .obj (f :: fs) => 1 + jcostF (f :: fs)
  | _ => 1

/-- Fuel needed by `parseElems` to parse the serialized elements. -/
def jcostE : List Json → Nat
  | [] => 1
  | x :: xs => 1 + max (jcostV x) (jcostE xs)

/-- Fuel needed by `parseFields` to parse the serialized fields. -/
def jcostF : List (JStr × Json) → Nat
  | [] => 1
  | f :: fs => 1 + max (jcostV f.2) (jcostF fs)

end

theorem one_le_jcostV (v : Json) : 1 ≤ jcostV v := by
  cases v with
  | arr xs => cases xs <;> simp [jcostV]
  | obj fs => cases fs <;> simp [jcostV]
  | _ => simp [jcostV]

theorem digitChar_isDigit (d : Nat) : (digitChar d).isDigit = true := by
  unfold digitChar
  split <;> decide

theorem digitChar_sub (d : Nat) (h : d < 10) : (digitChar d).toNat - 48 = d := by
  interval_cases d <;> decide

theorem ne_of_isDigit {c d : Char} (h : c.isDigit = true) (hd : d.isDigit = false) :
    c ≠ d := by
  intro he
  rw [he, hd] at h
  cases h

/-- Accumulated decimal value of a digit string on top of `acc`, as
`parseDigits` computes it. -/
def accVal (acc : Nat) (ds : JStr) : Nat :=
  ds.foldl (fun a c => a * 10 + (c.toNat - 48)) acc

theorem accVal_nil (acc : Nat) : accVal acc [] = acc := rfl

theorem accVal_cons (acc : Nat) (c : Char) (ds : JStr) :
    accVal acc (c :: ds) = accVal (acc * 10 + (c.toNat - 48)) ds := rfl

theorem accVal_append (acc : Nat) (ds es : JStr) :
    accVal acc (ds ++ es) = accVal (accVal acc ds) es := by
  simp [accVal, List.foldl_append]

theorem parseDigits_spec (ds : JStr) (hds : ds.all Char.isDigit = true) :
    ∀ rest acc, notDigitStart rest = true →
      parseDigits (ds ++ rest) acc = (accVal acc ds, rest) := by
  induction ds with
  | nil =>
    intro rest acc hrest
    cases rest with
    | nil => simp [parseDigits, accVal_nil]
    | cons c cs =>
      simp only [notDigitStart, Bool.not_eq_true'] at hrest
      simp [parseDigits, hrest, accVal_nil]
  | cons c ds ih =>
    intro rest acc hrest
    simp only [List.all_cons, Bool.and_eq_true] at hds
    simp [parseDigits, hds.1, ih hds.2 rest _ hrest, accVal_cons]

theorem natToChars_spec (fuel : Nat) :
    ∀ n, 0 < fuel → n < 10 ^ fuel →
      natToChars fuel n ≠ [] ∧ (natToChars fuel n).all Char.isDigit = true ∧
        ∀ acc, accVal acc (natToChars fuel n) =
          acc * 10 ^ (natToChars fuel n).length + n := by
  induction fuel with
  | zero => intro n hf _; omega
  | succ fuel ih =>
    intro n _ hn
    by_cases h10 : n < 10
    · refine ⟨by simp [natToChars, h10], by simp [natToChars, h10, digitChar_isDigit], ?_⟩
      intro acc
      simp [natToChars, h10, accVal_cons, accVal_nil, digitChar_sub n h10]
    · have hf : 0 < fuel := by
        rcases Nat.eq_zero_or_pos fuel with h | h
        · subst h; norm_num at hn; omega
        · exact h
      have hdiv : n / 10 < 10 ^ fuel := by
        rw [Nat.div_lt_iff_lt_mul (by norm_num)]
        calc n < 10 ^ (fuel + 1) := hn
        _ = 10 ^ fuel * 10 := by ring
      obtain ⟨hne, hall, hval⟩ := ih (n / 10) hf hdiv
      have heq : natToChars (fuel + 1) n =
          natToChars fuel (n / 10) ++ [digitChar (n % 10)] := by
        simp [natToChars, h10]
      refine ⟨by simp [heq], ?_, ?_⟩
      · simp [heq, List.all_append, hall, digitChar_isDigit]
      · intro acc
        rw [heq, accVal_append, hval acc, accVal_cons, accVal_nil,
          digitChar_sub (n % 10) (Nat.mod_lt _ (by norm_num))]
        simp [List.length_append, pow_succ]
        ring_nf
        omega

theorem natChars_spec (n : Nat) :
    natChars n ≠ [] ∧ (natChars n).all Char.isDigit = true ∧
      accVal 0 (natChars n) = n := by
  have hlt : n < 10 ^ (n + 1) := by
    calc n < 10 ^ n := Nat.lt_pow_self (by norm_num) n
    _ ≤ 10 ^ (n + 1) := Nat.pow_le_pow_right (by norm_num) (Nat.le_succ n)
  obtain ⟨hne, hall, hval⟩ := natToChars_spec (n + 1) n (Nat.succ_pos n) hlt
  exact ⟨hne, hall, by rw [natChars, hval 0]; ring⟩

theorem parseStrBody_escape (s : JStr) :
    ∀ rest, parseStrBody (escapeChars s ++ ('"' :: rest)) = some (s, rest) := by
  induction s with
  | nil =>
    intro rest
    simp only [escapeChars, List.nil_append]
    simp [parseStrBody.eq_def]
  | cons c s ih =>
    intro rest
    by_cases hc : c = '"' ∨ c = '\\'
    · simp only [escapeChars, if_pos hc, List.cons_append, List.append_assoc,
        List.nil_append]
      rw [parseStrBody.eq_def]
      simp [ih rest]
    · push_neg at hc
      simp only [escapeChars, if_neg (by tauto), List.cons_append, List.nil_append]
      rw [parseStrBody.eq_def]
      simp [hc.1, hc.2, ih rest]

theorem one_le_sizeOf_json (v : Json) : 1 ≤ sizeOf v := by
  cases v <;> simp

theorem stringify_head (v : Json) :
    ∃ c t, stringifyChars v = c :: t ∧
      (c.isDigit = true ∨ c = 'n' ∨ c = 't' ∨ c = 'f' ∨ c = '"' ∨ c = '[' ∨
        c = lbrace ∨ c = '-') := by
  cases v with
  | null =>
    exact ⟨'n', ['u', 'l', 'l'], by simp [stringifyChars, nullChars], by simp⟩
  | bool b =>
    cases b with
    | true =>
      exact ⟨'t', ['r', 'u', 'e'], by simp [stringifyChars, trueChars], by simp⟩
    | false =>
      exact ⟨'f', ['a', 'l', 's', 'e'], by simp [stringifyChars, falseChars], by simp⟩
  | num n =>
    by_cases hneg : n < 0
    · exact ⟨'-', natChars n.natAbs, by simp [stringifyChars, intChars, hneg], by simp⟩
    · obtain ⟨hne, hall, -⟩ := natChars_spec n.toNat
      obtain ⟨d, t, hdt⟩ : ∃ d t, natChars n.toNat = d :: t := by
        cases h : natChars n.toNat with
        | nil => exact absurd h hne
        | cons d t => exact ⟨d, t, rfl⟩
      refine ⟨d, t, by simp [stringifyChars, intChars, hneg, hdt], Or.inl ?_⟩
      rw [hdt, List.all_cons, Bool.and_eq_true] at hall
      exact hall.1
  | str s => exact ⟨'"', escapeChars s ++ ['"'], by simp [stringifyChars], by simp⟩
  | arr xs =>
    cases xs with
    | nil => exact ⟨'[', [']'], by simp [stringifyChars], by simp⟩
    | cons x xs =>
      exact ⟨'[', stringifyChars x ++ (stringifyTail xs ++ [']']),
        by simp [stringifyChars], by simp⟩
  | obj fs =>
    cases fs with
    | nil => exact ⟨lbrace, [rbrace], by simp [stringifyChars], by simp⟩
    | cons f fs =>
      exact ⟨lbrace, fieldChars f ++ (fieldTail fs ++ [rbrace]),
        by simp [stringifyChars], by simp⟩

theorem stringify_take_ne_rbracket (v : Json) (rest : JStr) :
    ¬ (stringifyChars v ++ rest).take 1 = [']'] := by
  obtain ⟨c, t, hv, hc⟩ := stringify_head v
  rw [hv]
  simp only [List.cons_append, List.take_succ_cons, List.take_zero, List.cons.injEq,
    and_true]
  rcases hc with h | h | h | h | h | h | h | h
  · exact ne_of_isDigit h (by decide)
  all_goals (subst h; decide)

theorem stringify_take_ne_rbrace (v : Json) (rest : JStr) :
    ¬ (stringifyChars v ++ rest).take 1 = [rbrace] := by
  obtain ⟨c, t, hv, hc⟩ := stringify_head v
  rw [hv]
  simp only [List.cons_append, List.take_succ_cons, List.take_zero, List.cons.injEq,
    and_true]
  rcases hc with h | h | h | h | h | h | h | h
  · exact ne_of_isDigit h (by decide)
  all_goals (subst h; decide)

theorem nd_stringifyTail (xs : List Json) (rest : JStr) :
    notDigitStart (stringifyTail xs ++ (']' :: rest)) = true := by
  cases xs with
  | nil => simp [stringifyTail, notDigitStart]
  | cons x xs => simp [stringifyTail, notDigitStart]

theorem nd_fieldTail (fs : List (JStr × Json)) (rest : JStr) :
    notDigitStart (fieldTail fs ++ (rbrace :: rest)) = true := by
  cases fs with
  | nil =>
    simp only [fieldTail, List.nil_append, notDigitStart, Bool.not_eq_true']
    decide
  | cons f fs => simp [fieldTail, notDigitStart]

mutual

theorem jcostV_le_length (v : Json) : jcostV v ≤ (stringifyChars v).length := by
  cases v with
  | null => simp [jcostV, stringifyChars, nullChars]
  | bool b => cases b <;> simp [jcostV, stringifyChars, trueChars, falseChars]
  | num n =>
    have h1 : 1 ≤ (stringifyChars (Json.num n)).length := by
      by_cases hneg : n < 0
      · simp [stringifyChars, intChars, hneg]
      · have hne := (natChars_spec n.toNat).1
        simp [stringifyChars, intChars, hneg]
        exact List.length_pos.mpr hne
    simpa [jcostV] using h1
  | str s => simp [jcostV, stringifyChars]
  | arr xs =>
    cases xs with
    | nil => simp [jcostV, stringifyChars]
    | cons x xs =>
      have h := jcostE_le_length x xs
      simp only [jcostV, stringifyChars, List.length_cons, List.length_append,
        List.length_singleton] at h ⊢
      omega
  | obj fs =>
    cases fs with
    | nil => simp [jcostV, stringifyChars]
    | cons f fs =>
      obtain ⟨k, v⟩ := f
      have h := jcostF_le_length k v fs
      simp only [jcostV, stringifyChars, List.length_cons, List.length_append,
        List.length_singleton] at h ⊢
      omega
termination_by sizeOf v
decreasing_by all_goals (subst_vars; simp_wf; try omega)

theorem jcostE_le_length (x : Json) (xs : List Json) :
    jcostE (x :: xs) ≤ (stringifyChars x).length + ((stringifyTail xs).length + 1) := by
  have hx := jcostV_le_length x
  cases xs with
  | nil =>
    have h1 := le_trans (one_le_jcostV x) hx
    simp only [jcostE, stringifyTail, List.length_nil]
    omega
  | cons x2 xs2 =>
    have h2 := jcostE_le_length x2 xs2
    simp only [jcostE, stringifyTail, List.length_cons, List.length_append] at h2 ⊢
    omega
termination_by 1 + sizeOf x + sizeOf xs
decreasing_by all_goals (subst_vars; simp_wf; try omega)

theorem jcostF_le_length (k : JStr) (v : Json) (fs : List (JStr × Json)) :
    jcostF ((k, v) :: fs) ≤ (fieldChars (k, v)).length + ((fieldTail fs).length + 1) := by
  have hv := jcostV_le_length v
  cases fs with
  | nil =>
    have h1 := le_trans (one_le_jcostV v) hv
    simp only [jcostF, fieldChars, fieldTail, List.length_nil, List.length_cons,
      List.length_append]
    omega
  | cons f2 fs2 =>
    obtain ⟨k2, v2⟩ := f2
    have h2 := jcostF_le_length k2 v2 fs2
    simp only [jcostF, fieldChars, fieldTail, List.length_cons, List.length_append] at h2 ⊢
    omega
termination_by 1 + sizeOf v + sizeOf fs
decreasing_by all_goals (subst_vars; simp_wf; try omega)

end

theorem parseElems_succ (fuel : Nat) (cs : JStr) :
    parseElems (fuel + 1) cs =
      (parseVal fuel cs).bind fun p =>
        match p.2 with
        | c2 :: r2 =>
          if c2 = ',' then (parseElems fuel r2).map fun q => (p.1 :: q.1, q.2)
          else if c2 = ']' then some ([p.1], r2)
          else none
        | [] => none := rfl

theorem parseFields_succ (fuel : Nat) (cs : JStr) :
    parseFields (fuel + 1) cs =
      (match cs with
      | c :: cs2 =>
        if c = '"' then
          (parseStrBody cs2).bind fun kp =>
            match kp.2 with
            | c2 :: r2 =>
              if c2 = ':' then
                (parseVal fuel r2).bind fun vp =>
                  match vp.2 with
                  | c4 :: r4 =>
                    if c4 = ',' then
                      (parseFields fuel r4).map fun q => ((kp.1, vp.1) :: q.1, q.2)
                    else if c4 = rbrace then some ([(kp.1, vp.1)], r4)
                    else none
                  | [] => none
              else none
            | [] => none
        else none
      | [] => none) := rfl

mutual

/-- The parser reads back exactly the serialization of `v` and leaves the
rest of the input untouched, whenever the rest does not begin with a digit
and the fuel covers the nesting of `v`. -/
theorem parseVal_stringify (v : Json) :
    ∀ fuel rest, jcostV v ≤ fuel → notDigitStart rest = true →
      parseVal fuel (stringifyChars v ++ rest) = some (v, rest) := by
  intro fuel rest hfuel hrest
  obtain ⟨f, rfl⟩ : ∃ f, fuel = f + 1 :=
    ⟨fuel - 1, by have := one_le_jcostV v; omega⟩
  cases v with
  | null =>
    rw [show stringifyChars Json.null = ['n', 'u', 'l', 'l'] by simp [stringifyChars, nullChars]]
    rw [parseVal.eq_def]
    simp
  | bool b =>
    cases b with
    | true =>
      rw [show stringifyChars (Json.bool true) = ['t', 'r', 'u', 'e'] by
        simp [stringifyChars, trueChars]]
      rw [parseVal.eq_def]
      simp
    | false =>
      rw [show stringifyChars (Json.bool false) = ['f', 'a', 'l', 's', 'e'] by
        simp [stringifyChars, falseChars]]
      rw [parseVal.eq_def]
      simp
  | str s =>
    rw [show stringifyChars (Json.str s) = '"' :: (escapeChars s ++ ['"']) by
      simp [stringifyChars]]
    rw [parseVal.eq_def]
    simp only [List.cons_append, List.append_assoc, List.singleton_append]
    simp [parseStrBody_escape s rest]
  | num n =>
    by_cases hneg : n < 0
    · obtain ⟨hne, hall, hval⟩ := natChars_spec n.natAbs
      obtain ⟨d, t, hdt⟩ : ∃ d t, natChars n.natAbs = d :: t := by
        cases h : natChars n.natAbs with
        | nil => exact absurd h hne
        | cons d t => exact ⟨d, t, rfl⟩
      rw [hdt, List.all_cons, Bool.and_eq_true] at hall
      rw [hdt, accVal_cons] at hval
      rw [show stringifyChars (Json.num n) = '-' :: natChars n.natAbs by
        simp [stringifyChars, intChars, hneg], hdt]
      rw [parseVal.eq_def]
      simp only [List.cons_append]
      rw [parseDigits_spec t hall.2 rest _ hrest]
      simp only [Nat.zero_mul, Nat.zero_add] at hval
      have hlb : ¬ (('-' : Char) = lbrace) := by decide
      simp [hall.1, hlb, hval, abs_of_neg hneg]
    · obtain ⟨hne, hall, hval⟩ := natChars_spec n.toNat
      obtain ⟨d, t, hdt⟩ : ∃ d t, natChars n.toNat = d :: t := by
        cases h : natChars n.toNat with
        | nil => exact absurd h hne
        | cons d t => exact ⟨d, t, rfl⟩
      rw [hdt, List.all_cons, Bool.and_eq_true] at hall
      rw [hdt, accVal_cons] at hval
      rw [show stringifyChars (Json.num n) = natChars n.toNat by
        simp [stringifyChars, intChars, hneg], hdt]
      rw [parseVal.eq_def]
      simp only [List.cons_append]
      have h1 := ne_of_isDigit hall.1 (show ('n' : Char).isDigit = false by decide)
      have h2 := ne_of_isDigit hall.1 (show ('t' : Char).isDigit = false by decide)
      have h3 := ne_of_isDigit hall.1 (show ('f' : Char).isDigit = false by decide)
      have h4 := ne_of_isDigit hall.1 (show ('"' : Char).isDigit = false by decide)
      have h5 := ne_of_isDigit hall.1 (show ('[' : Char).isDigit = false by decide)
      have h6 := ne_of_isDigit hall.1 (show lbrace.isDigit = false by decide)
      have h7 := ne_of_isDigit hall.1 (show ('-' : Char).isDigit = false by decide)
      simp only [h1, h2, h3, h4, h5, h6, h7, if_false, hall.1, if_true]
      rw [parseDigits_spec t hall.2 rest _ hrest]
      simp only [Nat.zero_mul, Nat.zero_add] at hval
      simp [hval, show ((n.toNat : Nat) : Int) = n by omega]
  | arr xs =>
    cases xs with
    | nil =>
      rw [show stringifyChars (Json.arr []) = ['[', ']'] by simp [stringifyChars]]
      rw [parseVal.eq_def]
      simp
    | cons x xs =>
      rw [show stringifyChars (Json.arr (x :: xs)) =
          '[' :: (stringifyChars x ++ (stringifyTail xs ++ [']'])) by
        simp [stringifyChars]]
      rw [parseVal.eq_def]
      simp only [List.cons_append, List.append_assoc, List.singleton_append]
      have hne := stringify_take_ne_rbracket x (stringifyTail xs ++ ']' :: rest)
      have hcost : jcostE (x :: xs) ≤ f := by simp only [jcostV] at hfuel; omega
      have hrec := parseElems_stringify x xs f rest hcost hrest
      simp [hne, hrec]
  | obj fs =>
    cases fs with
    | nil =>
      rw [show stringifyChars (Json.obj []) = [lbrace, rbrace] by simp [stringifyChars]]
      rw [parseVal.eq_def]
      have e1 : ¬ (lbrace = 'n') := by decide
      have e2 : ¬ (lbrace = 't') := by decide
      have e3 : ¬ (lbrace = 'f') := by decide
      have e4 : ¬ (lbrace = '"') := by decide
      have e5 : ¬ (lbrace = '[') := by decide
      simp [e1, e2, e3, e4, e5]
    | cons fd fs =>
      rw [show stringifyChars (Json.obj (fd :: fs)) =
          lbrace :: (fieldChars fd ++ (fieldTail fs ++ [rbrace])) by
        simp [stringifyChars]]
      rw [parseVal.eq_def]
      simp only [List.cons_append, List.append_assoc, List.singleton_append]
      have e1 : ¬ (lbrace = 'n') := by decide
      have e2 : ¬ (lbrace = 't') := by decide
      have e3 : ¬ (lbrace = 'f') := by decide
      have e4 : ¬ (lbrace = '"') := by decide
      have e5 : ¬ (lbrace = '[') := by decide
      have hne : ¬ (fieldChars fd ++ (fieldTail fs ++ rbrace :: rest)).take 1 =
          [rbrace] := by
        obtain ⟨k, v⟩ := fd
        rw [show fieldChars (k, v) =
            '"' :: (escapeChars k ++ ('"' :: ':' :: stringifyChars v)) by
          simp [fieldChars]]
        simp only [List.cons_append, List.take_succ_cons, List.take_zero,
          List.cons.injEq, and_true]
        decide
      have hcost : jcostF (fd :: fs) ≤ f := by simp only [jcostV] at hfuel; omega
      have hrec := parseFields_stringify fd fs f rest hcost hrest
      simp [e1, e2, e3, e4, e5, hne, hrec]
termination_by sizeOf v
decreasing_by all_goals (subst_vars; simp_wf; try omega)

/-- `parseElems` reads back the serialized elements of a nonempty array up
to and including the closing bracket. -/
theorem parseElems_stringify (x : Json) (xs : List Json) :
    ∀ fuel rest, jcostE (x :: xs) ≤ fuel → notDigitStart rest = true →
      parseElems fuel (stringifyChars x ++ (stringifyTail xs ++ (']' :: rest))) =
        some (x :: xs, rest) := by
  intro fuel rest hfuel hrest
  obtain ⟨f, rfl⟩ : ∃ f, fuel = f + 1 :=
    ⟨fuel - 1, by simp only [jcostE] at hfuel; omega⟩
  have hx : jcostV x ≤ f := by simp only [jcostE] at hfuel; omega
  have hv := parseVal_stringify x f (stringifyTail xs ++ (']' :: rest)) hx
    (nd_stringifyTail xs rest)
  rw [parseElems_succ, hv]
  simp only [Option.bind]
  cases xs with
  | nil => simp [stringifyTail]
  | cons x2 xs2 =>
    have hc2 : jcostE (x2 :: xs2) ≤ f := by simp only [jcostE] at hfuel ⊢; omega
    have hrec := parseElems_stringify x2 xs2 f rest hc2 hrest
    simp only [stringifyTail, List.cons_append, List.append_assoc] at hrec ⊢
    simp [hrec]
termination_by 1 + sizeOf x + sizeOf xs
decreasing_by all_goals (subst_vars; simp_wf; try omega)

/-- `parseFields` reads back the serialized fields of a nonempty object up
to and including the closing brace. -/
theorem parseFields_stringify (fd : JStr × Json) (fs : List (JStr × Json)) :
    ∀ fuel rest, jcostF (fd :: fs) ≤ fuel → notDigitStart rest = true →
      parseFields fuel (fieldChars fd ++ (fieldTail fs ++ (rbrace :: rest))) =
        some (fd :: fs, rest) := by
  intro fuel rest hfuel hrest
  obtain ⟨f, rfl⟩ : ∃ f, fuel = f + 1 :=
    ⟨fuel - 1, by simp only [jcostF] at hfuel; omega⟩
  have hv : jcostV fd.2 ≤ f := by simp only [jcostF] at hfuel; omega
  rw [show fieldChars fd =
      '"' :: (escapeChars fd.1 ++ ('"' :: ':' :: stringifyChars fd.2)) by
    obtain ⟨k, v⟩ := fd; simp [fieldChars]]
  rw [parseFields_succ]
  simp only [List.cons_append, List.append_assoc]
  have hpv := parseVal_stringify fd.2 f (fieldTail fs ++ (rbrace :: rest)) hv
    (nd_fieldTail fs rest)
  rw [parseStrBody_escape fd.1]
  simp only [Option.bind]
  cases fs with
  | nil =>
    have hc1 : ¬ (rbrace = ',') := by decide
    simp only [fieldTail, List.nil_append] at hpv ⊢
    simp [hpv, hc1]
  | cons f2 fs2 =>
    have hc2 : jcostF (f2 :: fs2) ≤ f := by simp only [jcostF] at hfuel ⊢; omega
    have hrec := parseFields_stringify f2 fs2 f rest hc2 hrest
    simp only [fieldTail, List.cons_append, List.append_assoc] at hpv ⊢
    simp [hpv, hrec]
termination_by 1 + sizeOf fd + sizeOf fs
decreasing_by all_goals (subst_vars; simp_wf; try (rcases fd with ⟨k9, v9⟩; simp_wf); try omega)

end

/-- The serializer never produces the empty string (so the stored value is
always truthy as a JavaScript string). -/
theorem stringify_ne_nil (v : Json) : stringifyChars v ≠ [] := by
  obtain ⟨c, t, hv, -⟩ := stringify_head v
  rw [hv]
  exact List.cons_ne_nil c t

/-- Round trip: `JSON.parse` inverts `JSON.stringify` on every JSON value. -/
theorem jsonParse_stringify (v : Json) : jsonParse (stringifyChars v) = some v := by
  unfold jsonParse
  have hle := jcostV_le_length v
  have h := parseVal_stringify v ((stringifyChars v).length + 1) []
    (by omega) rfl
  rw [List.append_nil] at h
  rw [h]

/-! ## The transport layer and the cache facade (`utils/redis.js`)

The facade operations `get` / `set` / `del` / `clearPattern` are embedded
over an abstract transport client (`ClientOps`): each client call either
returns a value or throws, and moves a client state of type `σ`.  A thrown
JavaScript error is an `Except.error`; the `try`/`catch` structure of each
facade operation is kept explicit.  Each operation also records the list of
transport commands it actually issued, so "no real network attempt is made"
is provable. -/

/-- Result of one transport-level client call: the value, or a thrown
JavaScript error carrying a message. -/
abbrev TR (α : Type) := Except JStr α

/-- Transport commands the facade can issue on the underlying client. -/
inductive Cmd where
  | getC (key : JStr)
  | setExC (key : JStr) (ttl : Nat) (raw : JStr)
  | delC (key : JStr)
  | delManyC (keys : List JStr)
  | keysC (pat : JStr)

/-- Behaviour of the underlying transport client (node-redis `getClient()`
handle): each operation returns a result or throws, and moves the client
state. -/
structure ClientOps (σ : Type) where
  getOp : σ → JStr → TR (Option JStr) × σ
  setExOp : σ → JStr → Nat → JStr → TR Unit × σ
  delOp : σ → JStr → TR Unit × σ
  delManyOp : σ → List JStr → TR Unit × σ
  keysOp : σ → JStr → TR (List JStr) × σ

/-- Message of the `SyntaxError` thrown by `JSON.parse`. -/
def parseErrorMsg : JStr := ['S', 'y', 'n', 't', 'a', 'x', 'E', 'r', 'r', 'o', 'r']

/-- The `try` block of facade `get`: not-ready short circuit, transport
`get`, JavaScript truthiness test on the raw string, `JSON.parse`. -/
def cacheGetTry (ops : ClientOps σ) (ready : Bool) (s : σ) (key : JStr) :
    TR Json × σ × List Cmd :=
  if !ready then (.ok .null, s, [])
  else
    match ops.getOp s key with
    | (.error e, s') => (.error e, s', [.getC key])
    | (.ok none, s') => (.ok .null, s', [.getC key])
    | (.ok (some raw), s') =>
      if raw = [] then (.ok .null, s', [.getC key])
      else
        match jsonParse raw with
        | some v => (.ok v, s', [.getC key])
        | none => (.error parseErrorMsg, s', [.getC key])

/-- Facade `get`: the `catch` handler converts any thrown error into a
`null` cache miss. -/
def cacheGet (ops : ClientOps σ) (ready : Bool) (s : σ) (key : JStr) :
    TR Json × σ × List Cmd :=
  match cacheGetTry ops ready s key with
  | (.error _, s', t) => (.ok .null, s', t)
  | r => r

/-- The `try` block of facade `set`: not-ready short circuit, then
`setEx(key, ttl, JSON.stringify(value))`.  The source default for `ttl`
is 300 seconds. -/
def cacheSetTry (ops : ClientOps σ) (ready : Bool) (s : σ) (key : JStr)
    (v : Json) (ttl : Nat) : TR Unit × σ × List Cmd :=
  if !ready then (.ok (), s, [])
  else
    match ops.setExOp s key ttl (stringifyChars v) with
    | (.error e, s') => (.error e, s', [.setExC key ttl (stringifyChars v)])
    | (.ok _, s') => (.ok (), s', [.setExC key ttl (stringifyChars v)])

/-- Facade `set`: the `catch` handler absorbs any thrown error. -/
def cacheSet (ops : ClientOps σ) (ready : Bool) (s : σ) (key : JStr)
    (v : Json) (ttl : Nat) : TR Unit × σ × List Cmd :=
  match cacheSetTry ops ready s key v ttl with
  | (.error _, s', t) => (.ok (), s', t)
  | r => r

/-- The `try` block of facade `del`. -/
def cacheDelTry (ops : ClientOps σ) (ready : Bool) (s : σ) (key : JStr) :
    TR Unit × σ × List Cmd :=
  if !ready then (.ok (), s, [])
  else
    match ops.delOp s key with
    | (.error e, s') => (.error e, s', [.delC key])
    | (.ok _, s') => (.ok (), s', [.delC key])

/-- Facade `del`: the `catch` handler absorbs any thrown error. -/
def cacheDel (ops : ClientOps σ) (ready : Bool) (s : σ) (key : JStr) :
    TR Unit × σ × List Cmd :=
  match cacheDelTry ops ready s key with
  | (.error _, s', t) => (.ok (), s', t)
  | r => r

/-- The `try` block of facade `clearPattern`: `keys(pattern)` then, when at
least one key matched, a batch `del(keys)`. -/
def clearPatternTry (ops : ClientOps σ) (ready : Bool) (s : σ) (pat : JStr) :
    TR Unit × σ × List Cmd :=
  if !ready then (.ok (), s, [])
  else
    match ops.keysOp s pat with
    | (.error e, s') => (.error e, s', [.keysC pat])
    | (.ok ks, s') =>
      if ks.length > 0 then
        match ops.delManyOp s' ks with
        | (.error e, s'') => (.error e, s'', [.keysC pat, .delManyC ks])
        | (.ok _, s'') => (.ok (), s'', [.keysC pat, .delManyC ks])
      else (.ok (), s', [.keysC pat])

/-- Facade `clearPattern`: the `catch` handler absorbs any thrown error. -/
def cacheClearPattern (ops : ClientOps σ) (ready : Bool) (s : σ) (pat : JStr) :
    TR Unit × σ × List Cmd :=
  match clearPatternTry ops ready s pat with
  | (.error _, s', t) => (.ok (), s', t)
  | r => r

/-! ## A live Redis store (healthy transport) -/

/-- The remote key-value store: entries `(key, serialized value, expiry
time in seconds since epoch)`. -/
abbrev Store := List (JStr × JStr × Nat)

/-- Redis `GET`: first entry for the key, visible only before its expiry
time (`now < expiresAt`). -/
def storeGet (st : Store) (now : Nat) (k : JStr) : Option JStr :=
  match st with
  | [] => none
  | e :: rest =>
    if e.1 = k then (if now < e.2.2 then some e.2.1 else none)
    else storeGet rest now k

/-- Redis `SETEX key ttl value`: replace any entry for the key, expiring
`ttl` seconds from now. -/
def storeSet (st : Store) (now : Nat) (k : JStr) (ttl : Nat) (raw : JStr) : Store :=
  (k, raw, now + ttl) :: st.filter (fun e => decide (¬ e.1 = k))

/-- Redis `DEL key…`: drop every entry whose key is listed. -/
def storeDelMany (st : Store) (ks : List JStr) : Store :=
  st.filter (fun e => decide (¬ e.1 ∈ ks))

/-- The unexpired keys of the store (what `KEYS *` can see). -/
def liveKeys (st : Store) (now : Nat) : List JStr :=
  (st.filter (fun e => decide (now < e.2.2))).map (fun e => e.1)

/-- Redis glob matching as used by `KEYS pattern` (`*` and `?`
wildcards). -/
def globMatch : JStr → JStr → Bool
  | [], s => s.isEmpty
  | '*' :: ps, [] => globMatch ps []
  | '*' :: ps, c :: cs => globMatch ps (c :: cs) || globMatch ('*' :: ps) cs
  | '?' :: _, [] => false
  | '?' :: ps, _ :: cs => globMatch ps cs
  | _ :: _, [] => false
  | p :: ps, c :: cs => decide (p = c) && globMatch ps cs
termination_by p s => p.length + s.length

/-- The transport client over a live store with a healthy connection:
every operation succeeds with Redis semantics. -/
def storeOps (now : Nat) : ClientOps Store where
  getOp := fun st k => (.ok (storeGet st now k), st)
  setExOp := fun st k ttl raw => (.ok (), storeSet st now k ttl raw)
  delOp := fun st k => (.ok (), storeDelMany st [k])
  delManyOp := fun st ks => (.ok (), storeDelMany st ks)
  keysOp := fun st p => (.ok ((liveKeys st now).filter (fun x => globMatch p x)), st)

/-! ## The connection manager (`RedisClient` in `utils/redis.js`) -/

/-- `this.maxRetries` as set in the `RedisClient` constructor. -/
def connMaxRetries : Nat := 5

/-- `this.retryDelay` (milliseconds) as set in the constructor. -/
def connRetryDelay : Nat := 1000

/-- The socket `reconnectStrategy` passed to `createClient`:
`none` models `return false` (stop reconnecting permanently), `some d`
models `return delay` (retry after `d` ms, `delay = min(retries * 1000,
5000)`). -/
def reconnectStrategy (retries : Nat) : Option Nat :=
  if retries > connMaxRetries then none
  else some (min (retries * connRetryDelay) 5000)

/-- The node-redis client handle (only its `isReady` flag matters here). -/
structure ClientHandle where
  isReadyFlag : Bool

/-- The fields assigned by the `RedisClient` constructor: `client = null`,
`isConnected = false`, `retryAttempts = 0` (plus the constants
`maxRetries` and `retryDelay` above).  There are no circuit-breaker
fields. -/
structure RedisClientState where
  client : Option ClientHandle
  isConnected : Bool
  retryAttempts : Nat

/-- The state right after the constructor runs. -/
def initialRedisClientState : RedisClientState :=
  { client := none, isConnected := false, retryAttempts := 0 }

/-- `isReady()`: `this.isConnected && this.client?.isReady` (optional
chaining on a `null` client yields `undefined`, which is falsy). -/
def RedisClientState.isReady (st : RedisClientState) : Bool :=
  st.isConnected && (match st.client with | some c => c.isReadyFlag | none => false)

/-- How one `connect()` invocation returns: normally after a successful
connect + ping, normally after scheduling a retry via `setTimeout`, or by
rethrowing the connection error (`throw error`). -/
inductive ConnectOutcome where
  | connected
  | scheduledRetry (delayMs : Nat)
  | threw
deriving DecidableEq

/-- One `connect()` invocation.  `success` abstracts whether the
`client.connect()` + `ping()` sequence succeeds.  On success the state
becomes connected with the retry counter reset; on failure the counter is
incremented and either a retry is scheduled after a fixed
`retryDelay = 1000` ms (when `retryAttempts < maxRetries`) or the error is
rethrown. -/
def connectAttempt (st : RedisClientState) (success : Bool) :
    RedisClientState × ConnectOutcome :=
  if success then
    ({ client := some { isReadyFlag := true }, isConnected := true,
       retryAttempts := 0 }, .connected)
  else
    let ra := st.retryAttempts + 1
    if ra < connMaxRetries then
      ({ client := some { isReadyFlag := false }, isConnected := false,
         retryAttempts := ra }, .scheduledRetry connRetryDelay)
    else
      ({ client := some { isReadyFlag := false }, isConnected := false,
         retryAttempts := ra }, .threw)

/-- A run of consecutive `connect()` invocations with the given attempt
outcomes; returns the final state and the outcome of the last
invocation. -/
def connectRun (st : RedisClientState) (outcomes : List Bool) :
    RedisClientState × Option ConnectOutcome :=
  outcomes.foldl (fun acc b => ((connectAttempt acc.1 b).1,
    some (connectAttempt acc.1 b).2)) (st, none)

/-! ## The health reporter (`controllers/health.js`) -/

/-- JavaScript values that can result from reading a property of the
`redisClient` object. -/
inductive JsValue where
  | jsUndefined
  | jsNull
  | jsBool (b : Bool)
  | jsNum (n : Int)
  | objRef
deriving DecidableEq

/-- JavaScript truthiness of a `JsValue`. -/
def JsValue.truthy : JsValue → Bool
  | .jsUndefined => false
  | .jsNull => false
  | .jsBool b => b
  | .jsNum n => decide (n ≠ 0)
  | .objRef => true

/-- JavaScript property access on the `redisClient` singleton: its own
properties are exactly the ones assigned in the constructor; any other
name (in particular the three circuit-breaker names read by
`detailedHealthCheck`) yields `undefined`. -/
def redisClientProp (st : RedisClientState) (name : String) : JsValue :=
  if name = "client" then
    (match st.client with | none => .jsNull | some _ => .objRef)
  else if name = "isConnected" then .jsBool st.isConnected
  else if name = "retryAttempts" then .jsNum st.retryAttempts
  else if name = "maxRetries" then .jsNum 5
  else if name = "retryDelay" then .jsNum 1000
  else .jsUndefined

/-- The `circuitBreaker` object of the detailed health report after the
assignments from `redisClient` fields. -/
structure CircuitBreakerReport where
  isOpen : JsValue
  failures : JsValue
  lastFailure : JsValue

/-- The `services.redis.status` strings the detailed health check can
assign. -/
inductive RedisStatus where
  | healthy
  | unhealthy
  | disconnected
  | circuitBreakerOpen
deriving DecidableEq

/-- The `services.redis` object of the detailed health report. -/
structure RedisHealthReport where
  status : RedisStatus
  connected : Bool
  circuitBreaker : CircuitBreakerReport
  responseTime : Option Nat

/-- `detailedHealthCheck` (the `services.redis` part): `connected` is
`isReady()`; the three `circuitBreaker` fields are read from
`redisClient.isCircuitBreakerOpen` / `.circuitBreakerFailures` /
`.circuitBreakerLastFailure`; when ready, a `ping` is timed (`pingOk`
abstracts its success, `pingMs` the measured latency); otherwise the
status is `circuit-breaker-open` when `redisClient.isCircuitBreakerOpen`
is truthy and `disconnected` otherwise. -/
def detailedRedisHealth (st : RedisClientState) (pingOk : Bool) (pingMs : Nat) :
    RedisHealthReport :=
  let cb : CircuitBreakerReport :=
    { isOpen := redisClientProp st "isCircuitBreakerOpen"
      failures := redisClientProp st "circuitBreakerFailures"
      lastFailure := redisClientProp st "circuitBreakerLastFailure" }
  if st.isReady then
    if pingOk then
      { status := .healthy, connected := true, circuitBreaker := cb,
        responseTime := some pingMs }
    else
      { status := .unhealthy, connected := true, circuitBreaker := cb,
        responseTime := none }
  else if (redisClientProp st "isCircuitBreakerOpen").truthy then
    { status := .circuitBreakerOpen, connected := false, circuitBreaker := cb,
      responseTime := none }
  else
    { status := .disconnected, connected := false, circuitBreaker := cb,
      responseTime := none }

/-- The JSON body and status of the readiness probe. -/
structure ReadinessReport where
  ready : Bool
  apiOk : Bool
  redisOk : Bool
  httpStatus : Nat

/-- `readinessCheck`: always `ready: true` with HTTP 200; the cache
connectivity is reported independently as `services.redis`. -/
def readinessCheck (st : RedisClientState) : ReadinessReport :=
  { ready := true, apiOk := true, redisOk := st.isReady, httpStatus := 200 }

/-! ## The cache middleware (`middleware/cache.js`) -/

/-- The parts of an Express request the middleware reads.  `query` is the
parsed query string in its original parameter order (Express preserves
insertion order, and `JSON.stringify` serializes object keys in that
order). -/
structure Req where
  method : JStr
  path : JStr
  query : List (JStr × JStr)

/-- What the downstream route handler would respond: it sets the status
code and calls `res.json(body)`. -/
structure HandlerSpec where
  status : Nat
  body : Json

/-- Observable outcome of running a middleware-wrapped request: the store
afterwards, the response status and body, and whether the downstream
handler ran. -/
structure MWOut where
  store : Store
  status : Nat
  body : Json
  ranHandler : Bool

/-- The string `"GET"`. -/
def methodGET : JStr := ['G', 'E', 'T']

/-- `generateCacheKey(req, prefix)`: the path with `/` replaced by `:`,
then, when the query object is nonempty, `':' + JSON.stringify(req.query)`
(insertion order, values as strings), all after the prefix. -/
def generateCacheKey (req : Req) (pre : JStr) : JStr :=
  let p := req.path.map (fun c => if c = '/' then ':' else c)
  let q :=
    if req.query.length > 0 then
      ':' :: stringifyChars (Json.obj (req.query.map (fun kv => (kv.1, Json.str kv.2))))
    else []
  pre ++ p ++ q

/-- The `cacheResponse(ttl, keyPrefix)` middleware on one request against a
live store: non-GET requests pass through; on a GET the cached value is
fetched and, when truthy, served as the response with the default 200
status and without running the handler; otherwise the handler runs and the
`res.json` override stores its body (whatever the status code) before the
response is sent with the handler's status. -/
def cacheResponse (ttl : Nat) (pre : JStr) (req : Req) (handler : HandlerSpec)
    (ready : Bool) (st : Store) (now : Nat) : MWOut :=
  if ¬ req.method = methodGET then
    { store := st, status := handler.status, body := handler.body, ranHandler := true }
  else
    let key := generateCacheKey req pre
    let got := cacheGet (storeOps now) ready st key
    let cachedData := match got.1 with | .ok v => v | .error _ => Json.null
    if cachedData.isTruthy then
      { store := got.2.1, status := 200, body := cachedData, ranHandler := false }
    else
      let after := cacheSet (storeOps now) ready got.2.1 key handler.body ttl
      { store := after.2.1, status := handler.status, body := handler.body,
        ranHandler := true }

/-- `invalidateCachePatterns(patterns)`: `cache.clearPattern` on each
pattern in order. -/
def invalidateCachePatterns (ready : Bool) (now : Nat) (st : Store)
    (pats : List JStr) : Store :=
  pats.foldl (fun s p => (cacheClearPattern (storeOps now) ready s p).2.1) st

/-- The `invalidateCache(patterns)` middleware on one request: the
`res.json` override clears the registered patterns exactly when the
response status code is 2xx, then sends the response. -/
def invalidateCache (pats : List JStr) (handler : HandlerSpec) (ready : Bool)
    (st : Store) (now : Nat) : MWOut :=
  if 200 ≤ handler.status ∧ handler.status < 300 then
    { store := invalidateCachePatterns ready now st pats,
      status := handler.status, body := handler.body, ranHandler := true }
  else
    { store := st, status := handler.status, body := handler.body, ranHandler := true }

/-! ## Store lemmas -/

theorem storeGet_storeSet_self (st : Store) (now now' ttl : Nat) (k : JStr)
    (raw : JStr) :
    storeGet (storeSet st now k ttl raw) now' k =
      if now' < now + ttl then some raw else none := by
  simp [storeSet, storeGet]

theorem storeGet_delMany (st : Store) (ks : List JStr) (now : Nat) (k : JStr) :
    storeGet (storeDelMany st ks) now k =
      if k ∈ ks then none else storeGet st now k := by
  induction st with
  | nil => simp [storeDelMany, storeGet]
  | cons e st ih =>
    by_cases hk : e.1 ∈ ks
    · rw [show storeDelMany (e :: st) ks = storeDelMany st ks by
        simp [storeDelMany, List.filter, hk]]
      rw [ih]
      by_cases hek : e.1 = k
      · subst hek
        simp [storeGet, hk]
      · simp [storeGet, hek]
    · rw [show storeDelMany (e :: st) ks = e :: storeDelMany st ks by
        simp [storeDelMany, List.filter, hk]]
      by_cases hek : e.1 = k
      · subst hek
        simp [storeGet, hk]
      · simp only [storeGet, hek, if_false, ih]

theorem liveKeys_cons (e : JStr × JStr × Nat) (st : Store) (now : Nat) :
    liveKeys (e :: st) now =
      if now < e.2.2 then e.1 :: liveKeys st now else liveKeys st now := by
  simp only [liveKeys, List.filter_cons]
  by_cases h : now < e.2.2 <;> simp [h]

theorem mem_liveKeys_of_storeGet_some (st : Store) (now : Nat) (k : JStr)
    (r : JStr) (h : storeGet st now k = some r) : k ∈ liveKeys st now := by
  induction st with
  | nil => simp [storeGet] at h
  | cons e st ih =>
    rw [liveKeys_cons]
    by_cases hek : e.1 = k
    · simp only [storeGet, if_pos hek] at h
      by_cases hlive : now < e.2.2
      · simp [hlive, hek]
      · simp [hlive] at h
    · simp only [storeGet, hek, if_false] at h
      have hmem := ih h
      by_cases hlive : now < e.2.2
      · simp [hlive, hmem]
      · simp [hlive, hmem]

/-- The observable effect of one facade `clearPattern` call on a live
store: exactly the keys matching the glob pattern read as absent
afterwards. -/
theorem storeGet_clearPattern (st : Store) (now : Nat) (pat k : JStr) :
    storeGet ((cacheClearPattern (storeOps now) true st pat).2.1) now k =
      if globMatch pat k then none else storeGet st now k := by
  have hks : ((storeOps now).keysOp st pat) =
      (.ok ((liveKeys st now).filter (fun x => globMatch pat x)), st) := rfl
  set ks := (liveKeys st now).filter (fun x => globMatch pat x) with hksdef
  by_cases hlen : ks.length > 0
  · have hstep : (cacheClearPattern (storeOps now) true st pat).2.1 =
        storeDelMany st ks := by
      simp [cacheClearPattern, clearPatternTry, storeOps, hlen]
    rw [hstep, storeGet_delMany]
    by_cases hg : globMatch pat k
    · rw [if_pos hg]
      by_cases hmem : k ∈ ks
      · rw [if_pos hmem]
      · rw [if_neg hmem]
        cases hsg : storeGet st now k with
        | none => rfl
        | some r =>
          exact absurd (List.mem_filter.mpr
            ⟨mem_liveKeys_of_storeGet_some st now k r hsg, hg⟩) hmem
    · rw [if_neg hg]
      have hmem : k ∉ ks := fun hmem => hg (List.mem_filter.mp hmem).2
      rw [if_neg hmem]
  · have hstep : (cacheClearPattern (storeOps now) true st pat).2.1 = st := by
      simp [cacheClearPattern, clearPatternTry, storeOps, hlen]
    rw [hstep]
    by_cases hg : globMatch pat k
    · rw [if_pos hg]
      cases hsg : storeGet st now k with
      | none => rfl
      | some r =>
        have hmem : k ∈ ks := List.mem_filter.mpr
          ⟨mem_liveKeys_of_storeGet_some st now k r hsg, hg⟩
        have : 0 < ks.length := List.length_pos.mpr (fun he => by simp [he] at hmem)
        omega
    · rw [if_neg hg]

/-- The observable effect of `invalidateCachePatterns` on a live store:
exactly the keys matching one of the patterns read as absent afterwards. -/
theorem storeGet_invalidatePatterns (pats : List JStr) (st : Store) (now : Nat)
    (k : JStr) :
    storeGet (invalidateCachePatterns true now st pats) now k =
      if pats.any (fun p => globMatch p k) then none else storeGet st now k := by
  induction pats generalizing st with
  | nil => simp [invalidateCachePatterns]
  | cons p ps ih =>
    have hfold : invalidateCachePatterns true now st (p :: ps) =
        invalidateCachePatterns true now
          ((cacheClearPattern (storeOps now) true st p).2.1) ps := by
      simp [invalidateCachePatterns]
    rw [hfold, ih, storeGet_clearPattern]
    by_cases hp : globMatch p k
    · simp [hp]
    · simp [hp]

/-! ## The claims -/

/-- C4: given a Ready connection, `get(K)` performed after a successful
`set(K, V, ttl)` and within `ttl` seconds returns `V` bit-for-bit identical
to the value that was stored (round-trip law). -/
theorem c4_get_after_set_roundtrip (st : Store) (now now' ttl : Nat)
    (key : JStr) (v : Json) (hfresh : now' < now + ttl) :
    (cacheGet (storeOps now') true
        (cacheSet (storeOps now) true st key v ttl).2.1 key).1 = .ok v := by
  have hset : (cacheSet (storeOps now) true st key v ttl).2.1 =
      storeSet st now key ttl (stringifyChars v) := rfl
  rw [hset]
  have hget : (storeOps now').getOp (storeSet st now key ttl (stringifyChars v)) key =
      (.ok (storeGet (storeSet st now key ttl (stringifyChars v)) now' key),
        storeSet st now key ttl (stringifyChars v)) := rfl
  have hsg := storeGet_storeSet_self st now now' ttl key (stringifyChars v)
  rw [if_pos hfresh] at hsg
  simp only [cacheGet, cacheGetTry, Bool.not_true, hget, hsg, if_false,
    stringify_ne_nil v, jsonParse_stringify v]
  simp [stringify_ne_nil v, jsonParse_stringify v]

/-- C4 witness: a concrete round trip through a Ready store. -/
theorem c4_get_after_set_roundtrip_witness :
    (cacheGet (storeOps 10) true
        (cacheSet (storeOps 0) true [] ['k'] (Json.num 42) 300).2.1 ['k']).1 =
      .ok (Json.num 42) :=
  c4_get_after_set_roundtrip [] 0 10 300 ['k'] (Json.num 42) (by decide)

/-- C6: the readiness probe reports `ready: true` with HTTP 200 regardless
of the cache connection state — including the initial state, where the
cache has been unreachable from process start — while independently
reporting the cache's own connectivity as the `services.redis` boolean. -/
theorem c6_readiness_independent_of_cache (st : RedisClientState) :
    (readinessCheck st).ready = true ∧
    (readinessCheck st).httpStatus = 200 ∧
    (readinessCheck st).redisOk = st.isReady ∧
    readinessCheck initialRedisClientState =
      { ready := true, apiOk := true, redisOk := false, httpStatus := 200 } :=
  ⟨rfl, rfl, rfl, rfl⟩

/-- C2 (code evaluation): `detailedHealthCheck` reads
`redisClient.isCircuitBreakerOpen`, `.circuitBreakerFailures` and
`.circuitBreakerLastFailure`, but the `RedisClient` constructor never
defines those fields, so in every connection state — in particular after
any number of consecutive transport failures — all three `circuitBreaker`
fields of the report are `undefined` (never the boolean `true`, never the
number `0`) and the `circuit-breaker-open` status branch is dead. -/
theorem c2_detailed_health_circuit_breaker_undefined
    (st : RedisClientState) (pingOk : Bool) (pingMs : Nat) :
    (detailedRedisHealth st pingOk pingMs).circuitBreaker.isOpen = JsValue.jsUndefined ∧
    (detailedRedisHealth st pingOk pingMs).circuitBreaker.failures = JsValue.jsUndefined ∧
    (detailedRedisHealth st pingOk pingMs).circuitBreaker.lastFailure = JsValue.jsUndefined ∧
    (detailedRedisHealth st pingOk pingMs).status ≠ RedisStatus.circuitBreakerOpen := by
  have h1 : redisClientProp st "isCircuitBreakerOpen" = JsValue.jsUndefined := rfl
  have h2 : redisClientProp st "circuitBreakerFailures" = JsValue.jsUndefined := rfl
  have h3 : redisClientProp st "circuitBreakerLastFailure" = JsValue.jsUndefined := rfl
  unfold detailedRedisHealth
  rw [h1, h2, h3]
  by_cases hr : st.isReady <;> by_cases hp : pingOk <;>
    simp [hr, hp, JsValue.truthy]

/-- C7 (counterexample): starting from the constructor state, five
consecutive failed attempts — `maxRetries = 5` — make `connect()` rethrow
the connection error (`throw error`) instead of returning: connection
failure is propagated as an exception after the maximum number of
consecutive failed attempts. -/
theorem c7_counterexample_connect_throws :
    (connectRun initialRedisClientState [false, false, false, false, false]).2 =
      some ConnectOutcome.threw ∧
    (connectRun initialRedisClientState [false, false, false, false, false]).1 =
      { client := some { isReadyFlag := false }, isConnected := false,
        retryAttempts := 5 } :=
  ⟨rfl, rfl⟩

/-- C7 (amended): `connect()` returns without raising an error while fewer
than `maxRetries` consecutive failures have been recorded — it schedules a
retry after the fixed 1000 ms `retryDelay` — and a successful attempt
resets the failure counter; but the invocation that reaches `maxRetries`
consecutive failures rethrows the connection error to its awaiter. -/
theorem c7_connect_raise_boundary (st : RedisClientState) :
    (connectAttempt st true).2 = ConnectOutcome.connected ∧
    (connectAttempt st true).1.retryAttempts = 0 ∧
    (connectAttempt st true).1.isConnected = true ∧
    (st.retryAttempts + 1 < connMaxRetries →
      (connectAttempt st false).2 = ConnectOutcome.scheduledRetry connRetryDelay) ∧
    (st.retryAttempts + 1 ≥ connMaxRetries →
      (connectAttempt st false).2 = ConnectOutcome.threw) := by
  refine ⟨rfl, rfl, rfl, ?_, ?_⟩
  · intro h
    simp [connectAttempt, h]
  · intro h
    simp [connectAttempt, Nat.not_lt.mpr h]

/-- C7 witness: the boundary behaviour at concrete retry counts. -/
theorem c7_connect_raise_boundary_witness :
    (connectAttempt ⟨none, false, 4⟩ false).2 = ConnectOutcome.threw ∧
    (connectAttempt initialRedisClientState false).2 =
      ConnectOutcome.scheduledRetry 1000 :=
  ⟨(c7_connect_raise_boundary _).2.2.2.2 (by decide),
   (c7_connect_raise_boundary _).2.2.2.1 (by decide)⟩

/-- C1 (counterexample): when the retry budget is exhausted the client
gives up permanently instead of opening a circuit: the socket
`reconnectStrategy` returns `false` (no further attempt, hence no probe
ever) once `retries > maxRetries`, and the `connect()` retry loop rethrows
on the fifth consecutive failure; no CircuitOpen state exists in
`RedisClient`. -/
theorem c1_counterexample_no_circuit_open :
    reconnectStrategy (connMaxRetries + 1) = none ∧
    (connectAttempt ⟨some ⟨false⟩, false, 4⟩ false).2 = ConnectOutcome.threw :=
  ⟨rfl, rfl⟩

/-- C1 (amended): for the first `maxRetries` socket reconnect attempts the
delay is `min(retries × 1000 ms, 5000 ms)` (capped at 5000 ms); past
`maxRetries` attempts the `reconnectStrategy` stops reconnection
permanently (`false`), scheduling no cooldown and no probe; independently,
`connect()` schedules fixed 1000 ms retries until `maxRetries` consecutive
failures and then throws. -/
theorem c1_retry_gives_up_permanently (n : Nat) (st : RedisClientState) :
    (n > connMaxRetries → reconnectStrategy n = none) ∧
    (n ≤ connMaxRetries →
      reconnectStrategy n = some (min (n * connRetryDelay) 5000) ∧
      min (n * connRetryDelay) 5000 ≤ 5000) ∧
    (st.retryAttempts + 1 < connMaxRetries →
      connectAttempt st false =
        ({ client := some { isReadyFlag := false }, isConnected := false,
           retryAttempts := st.retryAttempts + 1 },
         .scheduledRetry connRetryDelay)) ∧
    (st.retryAttempts + 1 ≥ connMaxRetries →
      connectAttempt st false =
        ({ client := some { isReadyFlag := false }, isConnected := false,
           retryAttempts := st.retryAttempts + 1 }, .threw)) := by
  refine ⟨?_, ?_, ?_, ?_⟩
  · intro h
    simp [reconnectStrategy, h]
  · intro h
    exact ⟨by simp [reconnectStrategy, Nat.not_lt.mpr h], Nat.min_le_right _ _⟩
  · intro h
    simp [connectAttempt, h]
  · intro h
    simp [connectAttempt, Nat.not_lt.mpr h]

/-- C1 witness: the strategy and retry loop at concrete inputs. -/
theorem c1_retry_gives_up_permanently_witness :
    reconnectStrategy 6 = none ∧
    reconnectStrategy 2 = some 2000 ∧
    (connectAttempt initialRedisClientState false).2 =
      ConnectOutcome.scheduledRetry 1000 := by
  refine ⟨(c1_retry_gives_up_permanently 6 initialRedisClientState).1 (by decide),
    ?_, ?_⟩
  · have h := ((c1_retry_gives_up_permanently 2 initialRedisClientState).2.1
      (by decide)).1
    rw [h]
    rfl
  · have h := (c1_retry_gives_up_permanently 6 initialRedisClientState).2.2.1
      (by decide)
    rw [h]
    rfl

/-- C8 (counterexample): two GET requests with the same path and the same
query parameters `a=1, b=2` supplied in opposite orders produce different
cache keys: `JSON.stringify(req.query)` serializes the query object in
insertion order, not sorted. -/
theorem c8_counterexample_order_sensitive_key :
    generateCacheKey
        { method := methodGET, path := ['/', 'a', 'p', 'i'],
          query := [(['a'], ['1']), (['b'], ['2'])] } ['b', 'l', 'o', 'g', 's'] ≠
      generateCacheKey
        { method := methodGET, path := ['/', 'a', 'p', 'i'],
          query := [(['b'], ['2']), (['a'], ['1'])] } ['b', 'l', 'o', 'g', 's'] := by
  decide

/-- C8 (amended): the cache key is computed deterministically from the
configured prefix, the path with every `/` replaced by `:`, and — when at
least one query parameter is present — a `:` followed by the
insertion-ordered JSON serialization of the query object; it does not
depend on the request method, and two requests whose query parameters
arrive in the same order share the same key. -/
theorem c8_key_shape (m1 m2 : JStr) (path : JStr) (q : List (JStr × JStr))
    (pre : JStr) :
    generateCacheKey { method := m1, path := path, query := q } pre =
      generateCacheKey { method := m2, path := path, query := q } pre ∧
    generateCacheKey { method := m1, path := path, query := q } pre =
      pre ++ (path.map (fun c => if c = '/' then ':' else c) ++
        (if q.length > 0 then
          ':' :: stringifyChars (Json.obj (q.map (fun kv => (kv.1, Json.str kv.2))))
        else [])) ∧
    (generateCacheKey { method := m1, path := path, query := q } pre).take
        pre.length = pre := by
  refine ⟨rfl, by simp [generateCacheKey], ?_⟩
  have h : generateCacheKey { method := m1, path := path, query := q } pre =
      pre ++ (path.map (fun c => if c = '/' then ':' else c) ++
        (if q.length > 0 then
          ':' :: stringifyChars (Json.obj (q.map (fun kv => (kv.1, Json.str kv.2))))
        else [])) := by
    simp [generateCacheKey]
  rw [h, List.take_left]

/-- C3: the facade never raises to its callers, for every key, value, ttl,
pattern and transport behaviour: each operation's result is an `ok` value
(the `catch` handler absorbs every thrown error); when the connection
manager is not ready, `get` returns the `null` cache miss and
`set`/`del`/`clearPattern` return having issued no transport command and
left the client state untouched; and when the transport itself throws, the
call still returns the miss/no-op outcome. -/
theorem c3_facade_fail_soft {σ : Type} (ops : ClientOps σ) (ready : Bool)
    (s : σ) (key : JStr) (v : Json) (ttl : Nat) (pat : JStr) :
    (∃ w, (cacheGet ops ready s key).1 = .ok w) ∧
    (cacheSet ops ready s key v ttl).1 = .ok () ∧
    (cacheDel ops ready s key).1 = .ok () ∧
    (cacheClearPattern ops ready s pat).1 = .ok () ∧
    cacheGet ops false s key = (.ok .null, s, []) ∧
    cacheSet ops false s key v ttl = (.ok (), s, []) ∧
    cacheDel ops false s key = (.ok (), s, []) ∧
    cacheClearPattern ops false s pat = (.ok (), s, []) ∧
    (∀ e s', ops.getOp s key = (.error e, s') →
      cacheGet ops true s key = (.ok .null, s', [.getC key])) ∧
    (∀ e s', ops.setExOp s key ttl (stringifyChars v) = (.error e, s') →
      cacheSet ops true s key v ttl =
        (.ok (), s', [.setExC key ttl (stringifyChars v)])) ∧
    (∀ e s', ops.keysOp s pat = (.error e, s') →
      cacheClearPattern ops true s pat = (.ok (), s', [.keysC pat])) := by
  refine ⟨?_, ?_, ?_, ?_, rfl, rfl, rfl, rfl, ?_, ?_, ?_⟩
  · rcases h : cacheGetTry ops ready s key with ⟨tr, s', t⟩
    cases tr with
    | error e => exact ⟨.null, by simp [cacheGet, h]⟩
    | ok w => exact ⟨w, by simp [cacheGet, h]⟩
  · rcases h : cacheSetTry ops ready s key v ttl with ⟨tr, s', t⟩
    cases tr with
    | error e => simp [cacheSet, h]
    | ok u => simp [cacheSet, h]
  · rcases h : cacheDelTry ops ready s key with ⟨tr, s', t⟩
    cases tr with
    | error e => simp [cacheDel, h]
    | ok u => simp [cacheDel, h]
  · rcases h : clearPatternTry ops ready s pat with ⟨tr, s', t⟩
    cases tr with
    | error e => simp [cacheClearPattern, h]
    | ok u => simp [cacheClearPattern, h]
  · intro e s' h
    simp [cacheGet, cacheGetTry, h]
  · intro e s' h
    simp [cacheSet, cacheSetTry, h]
  · intro e s' h
    simp [cacheClearPattern, clearPatternTry, h]

/-- A transport client whose every operation throws, for exercising the
error-absorption clauses of the fail-soft contract. -/
def failingOps : ClientOps Unit where
  getOp := fun s _ => (.error ['x'], s)
  setExOp := fun s _ _ _ => (.error ['x'], s)
  delOp := fun s _ => (.error ['x'], s)
  delManyOp := fun s _ => (.error ['x'], s)
  keysOp := fun s _ => (.error ['x'], s)

/-- C3 witness: at a concrete failing transport and a concrete not-ready
call, the facade returns the miss/no-op outcomes. -/
theorem c3_facade_fail_soft_witness :
    cacheGet failingOps true () ['k'] = (.ok Json.null, (), [Cmd.getC ['k']]) ∧
    cacheSet failingOps false () ['k'] Json.null 300 = (.ok (), (), []) ∧
    cacheClearPattern failingOps true () ['p'] = (.ok (), (), [Cmd.keysC ['p']]) :=
  ⟨(c3_facade_fail_soft failingOps true () ['k'] Json.null 300 ['p']).2.2.2.2.2.2.2.2.1
      ['x'] () rfl,
   (c3_facade_fail_soft failingOps false () ['k'] Json.null 300 ['p']).2.2.2.2.2.1,
   (c3_facade_fail_soft failingOps true () ['k'] Json.null 300 ['p']).2.2.2.2.2.2.2.2.2.2
      ['x'] () rfl⟩

/-- C5: for every write request through the invalidation middleware against
a Ready cache, the registered cache-key patterns are cleared exactly when
the response status code is 2xx: after a 2xx response precisely the keys
matching a registered pattern read as absent, while a non-2xx (failed)
write leaves the store — and hence every cache entry — unchanged; the
response status and body pass through unmodified either way. -/
theorem c5_invalidate_iff_2xx (pats : List JStr) (handler : HandlerSpec)
    (st : Store) (now : Nat) (k : JStr) :
    ((200 ≤ handler.status ∧ handler.status < 300) →
      storeGet (invalidateCache pats handler true st now).store now k =
        (if pats.any (fun p => globMatch p k) then none else storeGet st now k)) ∧
    (¬ (200 ≤ handler.status ∧ handler.status < 300) →
      (invalidateCache pats handler true st now).store = st) ∧
    (invalidateCache pats handler true st now).status = handler.status ∧
    (invalidateCache pats handler true st now).body = handler.body := by
  by_cases h : 200 ≤ handler.status ∧ handler.status < 300
  · refine ⟨fun _ => ?_, fun hc => absurd h hc,
      by simp [invalidateCache, h], by simp [invalidateCache, h]⟩
    simp only [invalidateCache, if_pos h]
    exact storeGet_invalidatePatterns pats st now k
  · exact ⟨fun hc => absurd hc h, fun _ => by simp [invalidateCache, h],
      by simp [invalidateCache, h], by simp [invalidateCache, h]⟩

/-- C5 witness: a 201 write clears the matching entry, a 404 write leaves
the store untouched. -/
theorem c5_invalidate_iff_2xx_witness :
    storeGet (invalidateCache [['b', '*']] ⟨201, Json.null⟩ true
        [(['b', 'x'], ['0'], 50)] 0).store 0 ['b', 'x'] = none ∧
    (invalidateCache [['b', '*']] ⟨404, Json.null⟩ true
        [(['b', 'x'], ['0'], 50)] 0).store = [(['b', 'x'], ['0'], 50)] := by
  constructor
  · have h := (c5_invalidate_iff_2xx [['b', '*']] ⟨201, Json.null⟩
      [(['b', 'x'], ['0'], 50)] 0 ['b', 'x']).1 (by constructor <;> decide)
    rw [h]
    simp [globMatch]
  · exact (c5_invalidate_iff_2xx [['b', '*']] ⟨404, Json.null⟩
      [(['b', 'x'], ['0'], 50)] 0 ['b', 'x']).2.1 (by decide)

/-- C9: the response-cache middleware stores whatever body is passed to
`res.json` regardless of the response's status code — an error body is
cached exactly like a successful one — and a subsequent hit replays the
stored body as a fresh response with the default 200 status, not the
status of the original response.  Formally: a GET whose key is absent runs
the handler, forwards its status unchanged and caches its body whatever
that status was; a second GET for the same key within the TTL is answered
from the cache with status 200 and the first handler's body, without
running the second handler. -/
theorem c9_cache_ignores_status_and_replays_200 (pre : JStr) (req : Req)
    (handler1 handler2 : HandlerSpec) (st : Store) (now now' ttl : Nat)
    (hm : req.method = methodGET)
    (habsent : storeGet st now (generateCacheKey req pre) = none)
    (htruthy : handler1.body.isTruthy = true)
    (hfresh : now' < now + ttl) :
    (cacheResponse ttl pre req handler1 true st now).ranHandler = true ∧
    (cacheResponse ttl pre req handler1 true st now).status = handler1.status ∧
    (cacheResponse ttl pre req handler1 true st now).body = handler1.body ∧
    (cacheResponse ttl pre req handler1 true st now).store =
      storeSet st now (generateCacheKey req pre) ttl
        (stringifyChars handler1.body) ∧
    (cacheResponse ttl pre req handler2 true
        (cacheResponse ttl pre req handler1 true st now).store now').ranHandler =
      false ∧
    (cacheResponse ttl pre req handler2 true
        (cacheResponse ttl pre req handler1 true st now).store now').status = 200 ∧
    (cacheResponse ttl pre req handler2 true
        (cacheResponse ttl pre req handler1 true st now).store now').body =
      handler1.body := by
  have hmock : (¬ req.method = methodGET) = False := by simp [hm]
  have hget1 : cacheGet (storeOps now) true st (generateCacheKey req pre) =
      (.ok Json.null, st, [Cmd.getC (generateCacheKey req pre)]) := by
    simp [cacheGet, cacheGetTry, storeOps, habsent]
  have hr1 : cacheResponse ttl pre req handler1 true st now =
      { store := storeSet st now (generateCacheKey req pre) ttl
          (stringifyChars handler1.body),
        status := handler1.status, body := handler1.body, ranHandler := true } := by
    simp only [cacheResponse, hmock, if_false, hget1, Json.isTruthy,
      Bool.false_eq_true, if_false]
    rfl
  have hsg := storeGet_storeSet_self st now now' ttl (generateCacheKey req pre)
    (stringifyChars handler1.body)
  rw [if_pos hfresh] at hsg
  have hget2 : cacheGet (storeOps now') true
      (storeSet st now (generateCacheKey req pre) ttl
        (stringifyChars handler1.body)) (generateCacheKey req pre) =
      (.ok handler1.body,
        storeSet st now (generateCacheKey req pre) ttl
          (stringifyChars handler1.body),
        [Cmd.getC (generateCacheKey req pre)]) := by
    simp [cacheGet, cacheGetTry, storeOps, hsg, stringify_ne_nil,
      jsonParse_stringify]
  have hr2 : cacheResponse ttl pre req handler2 true
      (storeSet st now (generateCacheKey req pre) ttl
        (stringifyChars handler1.body)) now' =
      { store := storeSet st now (generateCacheKey req pre) ttl
          (stringifyChars handler1.body),
        status := 200, body := handler1.body, ranHandler := false } := by
    simp only [cacheResponse, hmock, if_false, hget2, htruthy, if_true]
  rw [hr1]
  simp [hr2]

/-- C9 witness: a 500 error body is cached on the miss, and the follow-up
GET is served from the cache with status 200 and that same body, with the
second handler never running. -/
theorem c9_cache_ignores_status_and_replays_200_witness :
    (cacheResponse 300 ['a'] ⟨methodGET, ['/', 'x'], []⟩ ⟨500, Json.str ['e']⟩
        true [] 0).status = 500 ∧
    (cacheResponse 300 ['a'] ⟨methodGET, ['/', 'x'], []⟩ ⟨404, Json.bool true⟩ true
        (cacheResponse 300 ['a'] ⟨methodGET, ['/', 'x'], []⟩ ⟨500, Json.str ['e']⟩
          true [] 0).store 1).status = 200 ∧
    (cacheResponse 300 ['a'] ⟨methodGET, ['/', 'x'], []⟩ ⟨404, Json.bool true⟩ true
        (cacheResponse 300 ['a'] ⟨methodGET, ['/', 'x'], []⟩ ⟨500, Json.str ['e']⟩
          true [] 0).store 1).body = Json.str ['e'] ∧
    (cacheResponse 300 ['a'] ⟨methodGET, ['/', 'x'], []⟩ ⟨404, Json.bool true⟩ true
        (cacheResponse 300 ['a'] ⟨methodGET, ['/', 'x'], []⟩ ⟨500, Json.str ['e']⟩
          true [] 0).store 1).ranHandler = false := by
  have h := c9_cache_ignores_status_and_replays_200 ['a']
    ⟨methodGET, ['/', 'x'], []⟩ ⟨500, Json.str ['e']⟩ ⟨404, Json.bool true⟩
    [] 0 1 300 rfl rfl (by decide) (by decide)
  exact ⟨h.2.1, h.2.2.2.2.2.1, h.2.2.2.2.2.2, h.2.2.2.2.1⟩

/-- C10: a cached payload that deserializes to a JSON-falsy value (`null`,
`false`, `0` or the empty string) is treated as a cache miss even though
its entry exists and is unexpired: the downstream handler runs again, its
response is sent, and the entry is re-populated with the handler's body —
the falsy value is never served from the cache. -/
theorem c10_falsy_cached_payload_is_miss (pre : JStr) (req : Req)
    (handler : HandlerSpec) (st : Store) (now ttl : Nat) (v : Json)
    (hm : req.method = methodGET)
    (hfalsy : v.isTruthy = false)
    (hstored : storeGet st now (generateCacheKey req pre) =
      some (stringifyChars v)) :
    (cacheResponse ttl pre req handler true st now).ranHandler = true ∧
    (cacheResponse ttl pre req handler true st now).status = handler.status ∧
    (cacheResponse ttl pre req handler true st now).body = handler.body ∧
    (cacheResponse ttl pre req handler true st now).store =
      storeSet st now (generateCacheKey req pre) ttl
        (stringifyChars handler.body) := by
  have hmock : (¬ req.method = methodGET) = False := by simp [hm]
  have hget : cacheGet (storeOps now) true st (generateCacheKey req pre) =
      (.ok v, st, [Cmd.getC (generateCacheKey req pre)]) := by
    simp [cacheGet, cacheGetTry, storeOps, hstored, stringify_ne_nil,
      jsonParse_stringify]
  have hr : cacheResponse ttl pre req handler true st now =
      { store := storeSet st now (generateCacheKey req pre) ttl
          (stringifyChars handler.body),
        status := handler.status, body := handler.body, ranHandler := true } := by
    simp only [cacheResponse, hmock, if_false, hget, hfalsy]
    rfl
  rw [hr]
  exact ⟨rfl, rfl, rfl, rfl⟩

/-- C10 witness: a stored serialized `false` under the request's key is not
served; the handler runs and its body replaces the entry. -/
theorem c10_falsy_cached_payload_is_miss_witness :
    (cacheResponse 300 ['a'] ⟨methodGET, ['/', 'x'], []⟩ ⟨200, Json.num 7⟩ true
        [(generateCacheKey ⟨methodGET, ['/', 'x'], []⟩ ['a'],
          stringifyChars (Json.bool false), 100)] 0).ranHandler = true ∧
    (cacheResponse 300 ['a'] ⟨methodGET, ['/', 'x'], []⟩ ⟨200, Json.num 7⟩ true
        [(generateCacheKey ⟨methodGET, ['/', 'x'], []⟩ ['a'],
          stringifyChars (Json.bool false), 100)] 0).body = Json.num 7 := by
  have h := c10_falsy_cached_payload_is_miss ['a'] ⟨methodGET, ['/', 'x'], []⟩
    ⟨200, Json.num 7⟩
    [(generateCacheKey ⟨methodGET, ['/', 'x'], []⟩ ['a'],
      stringifyChars (Json.bool false), 100)] 0 300 (Json.bool false)
    rfl rfl (by rfl)
  exact ⟨h.1, h.2.2.1⟩

end BlogApp
